import Mathlib

/-!
# Verification of `floodgate`'s validation helpers

A shallow embedding of `floodgate/common/pydantic_helpers.py`:

* `FieldConverter`: reflective per-class converter registry
  (`_pyd_get_converters`) and exact-runtime-type dispatch (`_pyd_convert`);
* `maybe_relative_path` and `required_xor`: validator factories;
* `update_forward_refs_recursive`: post-order forward-reference resolution.

Python classes are modelled by explicit dictionaries of members, the
per-class `_pyd_converters` cache by an explicit state threaded through the
functions, and attribute lookup on a class by a walk along its method
resolution order (mro).  Exceptions are modelled by `Except`.
-/

namespace Floodgate

/-- The exceptions the helpers can raise: `FieldConverterError` (a
configuration-shape error at registry-build time), `TypeError` (dispatch on
an unsupported runtime type) and `ValueError` (validator rejection). -/
inductive PyError where
  | fieldConverterError (msg : String)
  | typeError (msg : String)
  | valueError (msg : String)
deriving DecidableEq, Repr

/-- A Python runtime type: an identity, a printable name and the identities
of its proper superclasses.  Dispatch in `_pyd_convert` keys on the exact
type (structure equality here stands for type identity); the `supers` field
records the subclassing relation, which dispatch deliberately ignores. -/
structure PyType where
  tid : Nat
  name : String
  supers : List Nat
deriving DecidableEq, Repr

/-- Python's `repr` of a type, as interpolated by an f-string. -/
def typeRepr (t : PyType) : String :=
  "<class \x27" ++ t.name ++ "\x27>"

/-- A Python value: its exact runtime type and an abstract payload. -/
structure PyVal where
  ty : PyType
  data : Nat
deriving DecidableEq, Repr

/-- The underlying function of a converter `classmethod`.  `argAnns` is the
list of its annotated parameter types beyond the implicit type reference.

Modelled from the spec: `get_function_args_annotations` (from
`floodgate.common.typing`, not part of the excerpt) returns, per the spec,
the type annotations of a function's declared parameters beyond the
implicit type reference; here each function simply carries that result. -/
structure PyFunc where
  fid : Nat
  argAnns : List PyType
  run : Nat → PyVal → PyVal

/-- A member of a class dictionary: either a `classmethod` wrapping a
function, or any other kind of attribute. -/
inductive Member where
  | classmethodM (fn : PyFunc)
  | other

/-- A Python class as `FieldConverter`'s machinery sees it: an identity,
the method resolution order below the `FieldConverter` base (the class
itself first), and its own `__dict__` as an ordered association list. -/
structure PyClass where
  cid : Nat
  mro : List Nat
  dict : List (String × Member)

/-- First match in an association list (Python `dict` lookup). -/
def assocFind {α : Type} (k : Nat) : List (Nat × α) → Option α
  | [] => none
  | (k2, v) :: rest => if k2 = k then some v else assocFind k rest

/-- A converter registry: the insertion-ordered `{type: function}` dict. -/
abbrev Registry := List (PyType × PyFunc)

/-- Python `dict` lookup keyed by a runtime type. -/
def regLookup : Registry → PyType → Option PyFunc
  | [], _ => none
  | (t, f) :: rest, k => if t = k then some f else regLookup rest k

/-- The keys of a registry, in insertion order. -/
def regKeys (r : Registry) : List PyType :=
  r.map Prod.fst

/-- The member-name prefix `FieldConverter._pyd_converter_prefix`. -/
def pydConvPrefixStr : String := "_pyd_convert"

/-- Python's `str.startswith`, computed on the underlying character
sequences. -/
def strStartsWith (s p : String) : Bool :=
  p.data.isPrefixOf s.data

/-- The registry-construction loop of `FieldConverter._pyd_get_converters`:
walk the class dictionary in order; for each `classmethod` whose name
starts with the converter prefix, require exactly one annotated value
parameter and a not-yet-claimed key type, and append the entry. -/
def buildConverters : List (String × Member) → Registry → Except PyError Registry
  | [], converters => .ok converters
  | (name, member) :: rest, converters =>
    match member with
    | .other => buildConverters rest converters
    | .classmethodM fn =>
      if strStartsWith name pydConvPrefixStr then
        match fn.argAnns with
        | [converterType] =>
          if (regLookup converters converterType).isSome then
            .error (.fieldConverterError
              ("Multiple converters found for type " ++ typeRepr converterType ++
                ", there should only be one"))
          else
            buildConverters rest (converters ++ [(converterType, fn)])
        | _ =>
          .error (.fieldConverterError
            ("Converter " ++ name ++ " must take one positional argument: value"))
      else
        buildConverters rest converters

/-- The classes that have assigned their `_pyd_converters` attribute, with
the registry each one stored.  `FieldConverter` itself holds `None`. -/
abbrev CacheState := List (Nat × Registry)

/-- Reading `cls._pyd_converters`: Python attribute lookup walks the mro
and returns the first class's own assignment; reaching the
`FieldConverter` base yields its default `None`. -/
def cacheFind (cache : CacheState) : List Nat → Option Registry
  | [] => none
  | c :: rest =>
    match assocFind c cache with
    | some r => some r
    | none => cacheFind cache rest

/-- The method `FieldConverter._pyd_get_converters`: return the cached registry if the
`_pyd_converters` attribute is set (possibly inherited), otherwise build
from the class's own dictionary and assign the result on the class. -/
def pydGetConverters (cache : CacheState) (cls : PyClass) :
    Except PyError (Registry × CacheState) :=
  match cacheFind cache cls.mro with
  | some r => .ok (r, cache)
  | none =>
    match buildConverters cls.dict [] with
    | .ok converters => .ok (converters, (cls.cid, converters) :: cache)
    | .error e => .error e

/-- One invocation `fn(cls, value)` of a registered converter. -/
structure ConvCall where
  fid : Nat
  clsId : Nat
  arg : PyVal
deriving DecidableEq, Repr

/-- What a call to `FieldConverter._pyd_convert` did: the converter
invocations it performed, its result or raised exception, and the cache
state it left behind. -/
structure DispatchResult where
  calls : List ConvCall
  result : Except PyError PyVal
  cache : CacheState

/-- The dispatcher `FieldConverter._pyd_convert`: fetch the registry, look up the value's
exact runtime type, raise `TypeError` when absent, else call the converter
once as `fn(cls, value)`. -/
def pydConvert (cache : CacheState) (cls : PyClass) (value : PyVal) : DispatchResult :=
  match pydGetConverters cache cls with
  | .error e => ⟨[], .error e, cache⟩
  | .ok (converters, cache2) =>
    match regLookup converters value.ty with
    | none => ⟨[], .error (.typeError ("No converter for type " ++ typeRepr value.ty)), cache2⟩
    | some fn => ⟨[⟨fn.fid, cls.cid, value⟩], .ok (fn.run cls.cid value), cache2⟩

/-- A value that is either one element or a list of elements, as
`floodgate.common.typing.T_MaybeList` (a `Union` of the two). -/
inductive T_MaybeList (α : Type) where
  | single (a : α)
  | list (l : List α)

/-- Modelled from the spec: `ensure_list` from `floodgate.common.typing` is
not part of the excerpt; per the spec the helper factories accept "a
field-name set" given either as one name or as a list of names, and
normalize it to a list. -/
def ensure_list {α : Type} : T_MaybeList α → List α
  | .single a => [a]
  | .list l => l

/-- A POSIX path as `pathlib.Path` represents it: whether it is anchored at
the root, and its non-empty path segments in order. -/
structure PPath where
  absolute : Bool
  parts : List String
deriving DecidableEq, Repr

/-- Construction of a `pathlib.Path` from a string: absolute iff the string
starts with a slash; the segments are the slash-separated components, with
empty and current-directory components dropped. -/
def PPath.ofString (s : String) : PPath :=
  { absolute := strStartsWith s "/"
    parts := ((s.data.splitOn '/').map (fun l => String.mk l)).filter
      (fun seg => seg != "" && seg != ".") }

/-- The method `pathlib.Path.is_absolute`. -/
def PPath.isAbsolute (p : PPath) : Bool :=
  p.absolute

/-- The operator `pathlib.Path.__truediv__` (`p / q`): an absolute right
operand replaces the left one, a relative right operand is appended. -/
def PPath.join (p q : PPath) : PPath :=
  if q.absolute then q else ⟨p.absolute, p.parts ++ q.parts⟩

/-- The argument type `Union[Path, str]` of the path validator. -/
inductive PathOrStr where
  | path (p : PPath)
  | str (s : String)
deriving DecidableEq, Repr

/-- The coercion inside `validate_fn`: keep a `Path`, wrap a string with
`Path(path)`. -/
def toPPath : PathOrStr → PPath
  | .path p => p
  | .str s => PPath.ofString s

/-- Whether a value is a `Path` instance (`isinstance(x, Path)`). -/
def isPathVal : PathOrStr → Bool
  | .path _ => true
  | .str _ => false

/-- The inner `validate_fn` of `maybe_relative_path`: coerce a string to a
path, then join a non-absolute path onto the captured root and pass an
absolute one through. -/
def maybe_relative_path_validate_fn (root_path : PPath) (pa : PathOrStr) : PathOrStr :=
  let path := toPPath pa
  if !path.isAbsolute then .path (root_path.join path)
  else .path path

/-- The validator object `maybe_relative_path(fields, root_path)` hands to
the framework: the field names it is registered for, and the per-value
function. -/
structure PathFieldValidator where
  fields : List String
  validate : PathOrStr → PathOrStr

/-- The factory `maybe_relative_path`. -/
def maybe_relative_path (fields : T_MaybeList String) (root_path : PPath) :
    PathFieldValidator :=
  { fields := ensure_list fields
    validate := maybe_relative_path_validate_fn root_path }

/-- Models the validation framework applying a registered per-field
validator to a record: each named field's value is passed through the
validator function on its own, every other field is untouched. -/
def applyPathValidator (v : PathFieldValidator) (record : List (String × PathOrStr)) :
    List (String × PathOrStr) :=
  record.map (fun e => if e.1 ∈ v.fields then (e.1, v.validate e.2) else e)

/-- Python's single-quoted `repr` of a string. -/
def pyQuote (s : String) : String :=
  "\x27" ++ s ++ "\x27"

/-- Python's `repr` of a list of strings, as interpolated by an f-string. -/
def pyStrListRepr (l : List String) : String :=
  "[" ++ String.intercalate ", " (l.map pyQuote) ++ "]"

/-- The message of the `ValueError` raised by `required_xor`'s inner
`validate_fn`; it interpolates both field-name lists. -/
def requiredXorMsg (fields xorOtherFields : List String) : String :=
  "Either " ++ pyStrListRepr fields ++ " or " ++ pyStrListRepr xorOtherFields ++
    " are required, but not both sets of options"

/-- Python `values.get(name)` on a sibling-value dict whose stored entries
may themselves be `None`: a missing key and a stored `None` both give
`None`. -/
def svFind {V : Type} (name : String) : List (String × Option V) → Option V
  | [] => none
  | (k, v) :: rest => if k = name then v else svFind name rest

/-- The inner `validate_fn` of `required_xor`: the field's value is valid
exactly when its presence differs from the joint presence of all the
`xor_other_fields` siblings. -/
def required_xor_validate_fn {V : Type} (fields xorOtherFields : List String)
    (value : Option V) (values : List (String × Option V)) :
    Except PyError (Option V) :=
  let otherFieldsExist := xorOtherFields.all (fun name => (svFind name values).isSome)
  if otherFieldsExist = value.isSome then
    .error (.valueError (requiredXorMsg fields xorOtherFields))
  else
    .ok value

/-- The validator object `required_xor(fields, xor_other_fields)` hands to
the framework: the field names of the first set it is registered for, and
the per-value function closing over both name sets. -/
structure XorFieldValidator (V : Type) where
  fields : List String
  validate : Option V → List (String × Option V) → Except PyError (Option V)

/-- The factory `required_xor`. -/
def required_xor {V : Type} (fields xorOtherFields : T_MaybeList String) :
    XorFieldValidator V :=
  { fields := ensure_list fields
    validate := required_xor_validate_fn (ensure_list fields) (ensure_list xorOtherFields) }

/-- A class attribute as `update_forward_refs_recursive` classifies it:
either a directly-declared nested class that subclasses `BaseModel`, or
anything else. -/
inductive ModelAttr where
  | nestedModel (cid : Nat)
  | plainAttr
deriving DecidableEq, Repr

/-- A `BaseModel` subclass for the resolver: its own `__dict__`, ordered. -/
structure ModelCls where
  dict : List (String × ModelAttr)
deriving DecidableEq, Repr

/-- The universe of model classes, keyed by identity. -/
abbrev ModelWorld := List (Nat × ModelCls)

/-- The directly-declared nested model classes of a class, in declaration
order: the attributes passing the
`isinstance(value, type) and issubclass(value, BaseModel)` test. -/
def nestedModels (world : ModelWorld) (cid : Nat) : List Nat :=
  match assocFind cid world with
  | none => []
  | some m => m.dict.filterMap (fun e =>
      match e.2 with
      | .nestedModel c => some c
      | .plainAttr => none)

/-- Sequencing the recursive calls a `for` loop over the nested classes
makes: each child is processed by `rec`, the emitted traces concatenate in
declaration order, and a failed child fails the loop. -/
def ufrChildren (rec : Nat → Option (List Nat)) : List Nat → Option (List Nat)
  | [] => some []
  | c :: cs =>
    match rec c with
    | none => none
    | some tr1 =>
      match ufrChildren rec cs with
      | none => none
      | some tr2 => some (tr1 ++ tr2)

/-- Fueled run of `update_forward_refs_recursive` from one class: recurse
into every directly-declared nested model class first, then perform the
`model.update_forward_refs(**model.__dict__)` call on the class itself.
The result is the trace of `update_forward_refs` calls in the order they
happen; `none` means the given recursion-depth budget was exhausted, so the
Python call would still be running (the source has no cycle detection). -/
def update_forward_refs_recursive (world : ModelWorld) : Nat → Nat → Option (List Nat)
  | 0, _ => none
  | fuel + 1, cid =>
    match ufrChildren (update_forward_refs_recursive world fuel) (nestedModels world cid) with
    | none => none
    | some tr => some (tr ++ [cid])

/-- Whether a raised exception is a `FieldConverterError`. -/
def raisesFieldConverterError {α : Type} : Except PyError α → Bool
  | .error (.fieldConverterError _) => true
  | _ => false

/-- Whether a class-dictionary entry is a converter candidate claiming key
type `t`: a `classmethod` with the converter name prefix whose single
annotated parameter is `t`. -/
def isConvFor (t : PyType) (e : String × Member) : Bool :=
  match e with
  | (n, .classmethodM f) => strStartsWith n pydConvPrefixStr && decide (f.argAnns = [t])
  | (_, .other) => false

/-! Concrete fixtures used by witnesses and counterexamples. -/

/-- The runtime type `int`. -/
def intTy : PyType := ⟨0, "int", []⟩

/-- The runtime type `str`. -/
def strTy : PyType := ⟨1, "str", []⟩

/-- The runtime type `list`. -/
def listTy : PyType := ⟨2, "list", []⟩

/-- A runtime type `MyList` subclassing `list`. -/
def myListTy : PyType := ⟨3, "MyList", [2]⟩

/-- A converter for `int` values. -/
def fInt : PyFunc := ⟨10, [intTy], fun _ v => v⟩

/-- A second, distinct converter also annotated for `int` values. -/
def fIntB : PyFunc := ⟨11, [intTy], fun _ v => v⟩

/-- A converter for `str` values. -/
def fStr : PyFunc := ⟨12, [strTy], fun _ v => v⟩

/-- A converter for `list` values. -/
def fList : PyFunc := ⟨13, [listTy], fun _ v => v⟩

/-- A would-be converter declaring zero annotated value parameters. -/
def fNoArg : PyFunc := ⟨14, [], fun _ v => v⟩

/-- A class declaring one converter, for `int`. -/
def clsA : PyClass := ⟨1, [1], [("_pyd_convert_int", .classmethodM fInt)]⟩

/-- The registry `clsA` builds. -/
def regA : Registry := [(intTy, fInt)]

/-- The cache state after `clsA` has built and stored its registry. -/
def cacheA : CacheState := [(1, regA)]

/-- A subclass of `clsA` declaring its own converter, for `str`. -/
def clsB : PyClass := ⟨2, [2, 1], [("_pyd_convert_str", .classmethodM fStr)]⟩

/-- A class declaring one converter, keyed by `list`. -/
def clsL : PyClass := ⟨3, [3], [("_pyd_convert_list", .classmethodM fList)]⟩

/-- A class declaring two distinct converters that both claim `int`. -/
def clsDup : PyClass :=
  ⟨4, [4], [("_pyd_convert_a", .classmethodM fInt), ("_pyd_convert_b", .classmethodM fIntB)]⟩

/-- A class declaring a prefix-named classmethod with zero parameters. -/
def clsNoArg : PyClass := ⟨5, [5], [("_pyd_convert_bad", .classmethodM fNoArg)]⟩

/-- A three-level nesting chain of model classes: `0` directly declares
`1`, which directly declares `2`. -/
def chainW : ModelWorld :=
  [(0, ⟨[("inner", .nestedModel 1), ("x", .plainAttr)]⟩),
   (1, ⟨[("inner", .nestedModel 2)]⟩),
   (2, ⟨[("y", .plainAttr)]⟩)]

/-- A model class directly declaring itself as a nested model. -/
def selfLoopW : ModelWorld :=
  [(0, ⟨[("self_ref", .nestedModel 0)]⟩)]

/-- Two model classes each directly declaring the other. -/
def mutualLoopW : ModelWorld :=
  [(0, ⟨[("a", .nestedModel 1)]⟩), (1, ⟨[("b", .nestedModel 0)]⟩)]

/-! ## Theorems -/

/-- C1: when the registry of the owning type resolves and the value's exact
runtime type is one of its keys, `_pyd_convert` invokes the single
registered converter exactly once, as `converter(T, v)`, and returns its
result. -/
theorem pyd_convert_dispatches_exact_type_once
    (cache : CacheState) (cls : PyClass) (v : PyVal)
    (regs : Registry) (cache2 : CacheState) (fn : PyFunc)
    (hreg : pydGetConverters cache cls = .ok (regs, cache2))
    (hfn : regLookup regs v.ty = some fn) :
    pydConvert cache cls v =
      ⟨[⟨fn.fid, cls.cid, v⟩], .ok (fn.run cls.cid v), cache2⟩ := by
  simp only [pydConvert, hreg, hfn]

theorem pyd_convert_dispatches_exact_type_once_witness :
    pydConvert [] clsA ⟨intTy, 7⟩ =
      ⟨[⟨fInt.fid, clsA.cid, ⟨intTy, 7⟩⟩], .ok (fInt.run clsA.cid ⟨intTy, 7⟩), cacheA⟩ :=
  pyd_convert_dispatches_exact_type_once [] clsA ⟨intTy, 7⟩ regA cacheA fInt rfl rfl

/-- C2: when the registry of the owning type resolves but the value's exact
runtime type is not one of its keys, `_pyd_convert` raises a `TypeError`
naming the unsupported runtime type and performs no converter invocation at
all. -/
theorem pyd_convert_unregistered_type_errors
    (cache : CacheState) (cls : PyClass) (v : PyVal)
    (regs : Registry) (cache2 : CacheState)
    (hreg : pydGetConverters cache cls = .ok (regs, cache2))
    (hmiss : regLookup regs v.ty = none) :
    pydConvert cache cls v =
      ⟨[], .error (.typeError ("No converter for type " ++ typeRepr v.ty)), cache2⟩ := by
  simp only [pydConvert, hreg, hmiss]

theorem pyd_convert_unregistered_type_errors_witness :
    regLookup [(listTy, fList)] listTy = some fList ∧
    myListTy.supers = [listTy.tid] ∧
    pydConvert [] clsL ⟨myListTy, 0⟩ =
      ⟨[], .error (.typeError "No converter for type <class \x27MyList\x27>"),
        [(3, [(listTy, fList)])]⟩ :=
  ⟨rfl, rfl,
    pyd_convert_unregistered_type_errors [] clsL ⟨myListTy, 0⟩
      [(listTy, fList)] [(3, [(listTy, fList)])] rfl rfl⟩

/-- Every exception `_pyd_get_converters`'s build loop raises is a
`FieldConverterError`. -/
theorem buildConverters_error_shape :
    ∀ (l : List (String × Member)) (acc : Registry) (e : PyError),
      buildConverters l acc = .error e → ∃ m, e = .fieldConverterError m := by
  intro l
  induction l with
  | nil => intro acc e h; simp [buildConverters] at h
  | cons hd tl ih =>
    intro acc e h
    obtain ⟨n, mem⟩ := hd
    cases mem with
    | other =>
      exact ih acc e (by simpa [buildConverters] using h)
    | classmethodM fn =>
      rw [buildConverters] at h
      split at h
      · split at h
        · split at h
          · exact ⟨_, (by injection h with h2; exact h2.symm)⟩
          · exact ih _ e h
        · exact ⟨_, (by injection h with h2; exact h2.symm)⟩
      · exact ih acc e h

/-- A key found in a registry is still found after appending entries. -/
theorem regLookup_append_isSome (r1 r2 : Registry) (t : PyType)
    (h : (regLookup r1 t).isSome = true) :
    (regLookup (r1 ++ r2) t).isSome = true := by
  induction r1 with
  | nil => simp [regLookup] at h
  | cons hd tl ih =>
    obtain ⟨t2, f2⟩ := hd
    by_cases he : t2 = t
    · simp [regLookup, he]
    · simp only [List.cons_append, regLookup, if_neg he] at h ⊢
      exact ih h

/-- Appending an entry for a key makes the key found. -/
theorem regLookup_append_key (r1 : Registry) (t : PyType) (f : PyFunc) :
    (regLookup (r1 ++ [(t, f)]) t).isSome = true := by
  induction r1 with
  | nil => simp [regLookup]
  | cons hd tl ih =>
    obtain ⟨t2, f2⟩ := hd
    by_cases he : t2 = t
    · simp [regLookup, he]
    · simpa only [List.cons_append, regLookup, if_neg he] using ih

/-- Once the accumulated registry holds key `t`, a successful rest of the
build loop cannot contain any further converter claiming `t`. -/
theorem buildConverters_ok_count_zero (t : PyType) :
    ∀ (l : List (String × Member)) (acc r : Registry),
      (regLookup acc t).isSome = true → buildConverters l acc = .ok r →
      l.countP (isConvFor t) = 0 := by
  intro l
  induction l with
  | nil => intro acc r _ _; simp
  | cons hd tl ih =>
    intro acc r hacc h
    obtain ⟨n, mem⟩ := hd
    cases mem with
    | other =>
      rw [buildConverters] at h
      rw [List.countP_cons_of_neg _ _ (by simp [isConvFor])]
      exact ih acc r hacc h
    | classmethodM fn =>
      rw [buildConverters] at h
      split at h
      · rename_i hp
        split at h
        · rename_i t2 hann
          split at h
          · cases h
          · rename_i hdup
            have hne : t2 ≠ t := fun hEq => hdup (hEq ▸ hacc)
            rw [List.countP_cons_of_neg _ _ (by simp [isConvFor, hann, hne])]
            exact ih _ r (regLookup_append_isSome _ _ _ hacc) h
        · cases h
      · rename_i hp
        rw [List.countP_cons_of_neg _ _ (by simp [isConvFor, hp])]
        exact ih acc r hacc h

/-- A successful registry build accepts at most one converter per key
type among the scanned members. -/
theorem buildConverters_ok_count_le_one (t : PyType) :
    ∀ (l : List (String × Member)) (acc r : Registry),
      buildConverters l acc = .ok r → l.countP (isConvFor t) ≤ 1 := by
  intro l
  induction l with
  | nil => intro acc r _; simp
  | cons hd tl ih =>
    intro acc r h
    obtain ⟨n, mem⟩ := hd
    cases mem with
    | other =>
      rw [buildConverters] at h
      rw [List.countP_cons_of_neg _ _ (by simp [isConvFor])]
      exact ih acc r h
    | classmethodM fn =>
      rw [buildConverters] at h
      split at h
      · rename_i hp
        split at h
        · rename_i t2 hann
          split at h
          · cases h
          · rename_i hdup
            by_cases ht : t2 = t
            · subst ht
              rw [List.countP_cons_of_pos _ _
                (by simp only [isConvFor, Bool.and_eq_true, decide_eq_true_eq]
                    exact ⟨hp, hann⟩)]
              have hz := buildConverters_ok_count_zero t2 tl (acc ++ [(t2, fn)]) r
                (regLookup_append_key acc t2 fn) h
              omega
            · rw [List.countP_cons_of_neg _ _ (by simp [isConvFor, hann, ht])]
              exact ih _ r h
        · cases h
      · rename_i hp
        rw [List.countP_cons_of_neg _ _ (by simp [isConvFor, hp])]
        exact ih acc r h

/-- A successful registry build implies every scanned prefix-named
classmethod declared exactly one annotated value parameter. -/
theorem buildConverters_ok_arity :
    ∀ (l : List (String × Member)) (acc r : Registry) (n : String) (f : PyFunc),
      buildConverters l acc = .ok r → (n, Member.classmethodM f) ∈ l →
      strStartsWith n pydConvPrefixStr = true → f.argAnns.length = 1 := by
  intro l
  induction l with
  | nil => intro acc r n f _ hmem _; cases hmem
  | cons hd tl ih =>
    intro acc r n f h hmem hpref
    rcases List.mem_cons.mp hmem with hhd | htl
    · subst hhd
      rw [buildConverters] at h
      rw [if_pos hpref] at h
      split at h
      · rename_i t2 hann
        rw [hann]
        rfl
      · cases h
    · obtain ⟨n2, mem⟩ := hd
      cases mem with
      | other =>
        rw [buildConverters] at h
        exact ih acc r n f h htl hpref
      | classmethodM fn =>
        rw [buildConverters] at h
        split at h
        · split at h
          · split at h
            · cases h
            · exact ih _ r n f h htl hpref
          · cases h
        · exact ih acc r n f h htl hpref

/-- C3: a type declaring two distinct prefix-named classmethod converters
whose single annotated parameter is the same key type makes registry
construction raise a `FieldConverterError`, wherever in the class
dictionary the two members sit (hence regardless of declaration order);
dispatch then propagates the error, invokes nothing, and leaves the cache
state unchanged, so no registry is cached for the type. -/
theorem duplicate_key_converters_always_error
    (cache : CacheState) (cls : PyClass) (v : PyVal) (t : PyType)
    (pre mid post : List (String × Member)) (n1 n2 : String) (f1 f2 : PyFunc)
    (hdict : cls.dict = pre ++ (n1, .classmethodM f1) :: mid ++ (n2, .classmethodM f2) :: post)
    (hp1 : strStartsWith n1 pydConvPrefixStr = true) (ha1 : f1.argAnns = [t])
    (hp2 : strStartsWith n2 pydConvPrefixStr = true) (ha2 : f2.argAnns = [t])
    (hnc : cacheFind cache cls.mro = none) :
    raisesFieldConverterError (buildConverters cls.dict []) = true ∧
    raisesFieldConverterError (pydGetConverters cache cls) = true ∧
    (pydConvert cache cls v).calls = [] ∧
    (pydConvert cache cls v).cache = cache ∧
    raisesFieldConverterError (pydConvert cache cls v).result = true := by
  have h1 : isConvFor t (n1, Member.classmethodM f1) = true := by
    simp only [isConvFor, Bool.and_eq_true, decide_eq_true_eq]
    exact ⟨hp1, ha1⟩
  have h2 : isConvFor t (n2, Member.classmethodM f2) = true := by
    simp only [isConvFor, Bool.and_eq_true, decide_eq_true_eq]
    exact ⟨hp2, ha2⟩
  have hcount : 2 ≤ cls.dict.countP (isConvFor t) := by
    rw [hdict]
    simp [List.countP_append, List.countP_cons, h1, h2]
    omega
  cases hbc : buildConverters cls.dict [] with
  | ok r =>
    have := buildConverters_ok_count_le_one t cls.dict [] r hbc
    omega
  | error e =>
    obtain ⟨m, rfl⟩ := buildConverters_error_shape cls.dict [] e hbc
    refine ⟨rfl, ?_, ?_, ?_, ?_⟩ <;>
      simp [pydGetConverters, pydConvert, hnc, hbc, raisesFieldConverterError]

theorem duplicate_key_converters_always_error_witness :
    raisesFieldConverterError (buildConverters clsDup.dict []) = true ∧
    raisesFieldConverterError (pydGetConverters [] clsDup) = true ∧
    (pydConvert [] clsDup ⟨intTy, 0⟩).calls = [] ∧
    (pydConvert [] clsDup ⟨intTy, 0⟩).cache = [] ∧
    raisesFieldConverterError (pydConvert [] clsDup ⟨intTy, 0⟩).result = true :=
  duplicate_key_converters_always_error [] clsDup ⟨intTy, 0⟩ intTy
    [] [] [] "_pyd_convert_a" "_pyd_convert_b" fInt fIntB rfl rfl rfl rfl rfl rfl

/-- C4: a type declaring a prefix-named classmethod converter with zero or
with two or more annotated value parameters makes registry construction
raise a `FieldConverterError`, so a registry never comes into being. -/
theorem wrong_arity_converter_always_errors
    (cache : CacheState) (cls : PyClass)
    (pre post : List (String × Member)) (n : String) (f : PyFunc)
    (hdict : cls.dict = pre ++ (n, .classmethodM f) :: post)
    (hpref : strStartsWith n pydConvPrefixStr = true)
    (harity : f.argAnns.length ≠ 1)
    (hnc : cacheFind cache cls.mro = none) :
    raisesFieldConverterError (buildConverters cls.dict []) = true ∧
    raisesFieldConverterError (pydGetConverters cache cls) = true := by
  cases hbc : buildConverters cls.dict [] with
  | ok r =>
    have hmem : (n, Member.classmethodM f) ∈ cls.dict := by
      rw [hdict]
      exact List.mem_append.mpr (Or.inr (List.mem_cons_self _ _))
    exact absurd (buildConverters_ok_arity cls.dict [] r n f hbc hmem hpref) harity
  | error e =>
    obtain ⟨m, rfl⟩ := buildConverters_error_shape cls.dict [] e hbc
    exact ⟨rfl, by simp [pydGetConverters, hnc, hbc, raisesFieldConverterError]⟩

theorem wrong_arity_converter_always_errors_witness :
    raisesFieldConverterError (buildConverters clsNoArg.dict []) = true ∧
    raisesFieldConverterError (pydGetConverters [] clsNoArg) = true :=
  wrong_arity_converter_always_errors [] clsNoArg
    [] [] "_pyd_convert_bad" fNoArg rfl rfl (by decide) rfl

/-- C5 (amended): registry memoization is by attribute assignment with
inherited lookup.  For every type whose mro holds no class with a cached
registry, `_pyd_get_converters` builds the registry from the type's own
directly-declared members, caches it on the type, and every later lookup
for the type returns that same cached mapping without rebuilding; but a
type whose nearest cached mro entry is a proper ancestor instead returns
the ancestor's registry (see the counterexample). -/
theorem registry_built_once_and_cached_when_uninherited
    (cache : CacheState) (cls : PyClass) (r : Registry) (mroRest : List Nat)
    (hmro : cls.mro = cls.cid :: mroRest)
    (hnc : cacheFind cache cls.mro = none)
    (hbuild : buildConverters cls.dict [] = .ok r) :
    pydGetConverters cache cls = .ok (r, (cls.cid, r) :: cache) ∧
    pydGetConverters ((cls.cid, r) :: cache) cls = .ok (r, (cls.cid, r) :: cache) := by
  constructor
  · simp [pydGetConverters, hnc, hbuild]
  · have hfind : cacheFind ((cls.cid, r) :: cache) cls.mro = some r := by
      rw [hmro]
      simp [cacheFind, assocFind]
    simp [pydGetConverters, hfind]

theorem registry_built_once_and_cached_when_uninherited_witness :
    pydGetConverters [] clsA = .ok (regA, cacheA) ∧
    pydGetConverters cacheA clsA = .ok (regA, cacheA) :=
  registry_built_once_and_cached_when_uninherited [] clsA regA [] rfl rfl rfl

/-- C5 counterexample: `clsB` is a proper subclass of `clsA`; after `clsA`
has cached its registry, the lookup for `clsB` returns `clsA`'s registry —
the same mapping for two distinct types — even though `clsB`'s own
directly-declared members would build a different registry (its own `str`
converter is absent from the returned one). -/
theorem registry_inherited_cache_shared_counterexample :
    clsA.cid ≠ clsB.cid ∧
    pydGetConverters cacheA clsA = .ok (regA, cacheA) ∧
    pydGetConverters cacheA clsB = .ok (regA, cacheA) ∧
    buildConverters clsB.dict [] = .ok [(strTy, fStr)] ∧
    regLookup regA strTy = none :=
  ⟨by decide, rfl, rfl, rfl, rfl⟩

/-- C6: the validator produced by `maybe_relative_path` joins a
non-absolute field value onto the captured root path and passes an
absolute one through; root `/root` with value `sub/file` gives
`/root/sub/file` and `/abs/file` stays `/abs/file`; and the framework
applies it per named field, each output entry depending only on the entry
at the same position. -/
theorem maybe_relative_path_behavior :
    (∀ (root : PPath) (pa : PathOrStr), (toPPath pa).isAbsolute = false →
      maybe_relative_path_validate_fn root pa = .path (root.join (toPPath pa))) ∧
    (∀ (root : PPath) (pa : PathOrStr), (toPPath pa).isAbsolute = true →
      maybe_relative_path_validate_fn root pa = .path (toPPath pa)) ∧
    maybe_relative_path_validate_fn (PPath.ofString "/root") (.str "sub/file") =
      .path (PPath.ofString "/root/sub/file") ∧
    maybe_relative_path_validate_fn (PPath.ofString "/root")
        (.path (PPath.ofString "/abs/file")) =
      .path (PPath.ofString "/abs/file") ∧
    ∀ (fields : T_MaybeList String) (root : PPath)
      (record : List (String × PathOrStr)) (i : Nat),
      (applyPathValidator (maybe_relative_path fields root) record)[i]? =
        (record[i]?).map (fun e =>
          if e.1 ∈ ensure_list fields then
            (e.1, maybe_relative_path_validate_fn root e.2)
          else e) := by
  refine ⟨?_, ?_, by decide, by decide, ?_⟩
  · intro root pa h
    simp [maybe_relative_path_validate_fn, h]
  · intro root pa h
    simp [maybe_relative_path_validate_fn, h]
  · intro fields root record i
    simp [applyPathValidator, maybe_relative_path, List.getElem?_map]

theorem maybe_relative_path_behavior_witness :
    (toPPath (.str "sub/file")).isAbsolute = false ∧
    maybe_relative_path_validate_fn (PPath.ofString "/root") (.str "sub/file") =
      .path ((PPath.ofString "/root").join (toPPath (.str "sub/file"))) :=
  ⟨by decide, maybe_relative_path_behavior.1 (PPath.ofString "/root") (.str "sub/file") (by decide)⟩

/-- C7: the validator produced by `required_xor` raises a `ValueError`
whose message interpolates both field-name sets exactly when the joint
presence of all `xor_other_fields` siblings coincides with the presence of
the validated field's own value, and returns the value unchanged
otherwise; in particular, for `A = ["x"]`, `B = ["y", "z"]`: `x=1, y=None`
passes, `x=1, y=2, z=3` fails, `x=None, y=None, z=3` fails, and `x=None,
y=2, z=3` passes. -/
theorem required_xor_behavior :
    (∀ (V : Type) (A B : List String) (value : Option V)
        (values : List (String × Option V)),
      required_xor_validate_fn A B value values =
          .error (.valueError (requiredXorMsg A B)) ↔
        B.all (fun name => (svFind name values).isSome) = value.isSome) ∧
    (∀ (V : Type) (A B : List String) (value : Option V)
        (values : List (String × Option V)),
      required_xor_validate_fn A B value values = .ok value ↔
        B.all (fun name => (svFind name values).isSome) ≠ value.isSome) ∧
    requiredXorMsg ["x"] ["y", "z"] =
      "Either [\x27x\x27] or [\x27y\x27, \x27z\x27] are required, but not both sets of options" ∧
    (required_xor (V := Nat) (.list ["x"]) (.list ["y", "z"])).validate (some 1)
        [("y", none)] = .ok (some 1) ∧
    (required_xor (V := Nat) (.list ["x"]) (.list ["y", "z"])).validate (some 1)
        [("y", some 2), ("z", some 3)] =
      .error (.valueError (requiredXorMsg ["x"] ["y", "z"])) ∧
    (required_xor (V := Nat) (.list ["x"]) (.list ["y", "z"])).validate none
        [("y", none), ("z", some 3)] =
      .error (.valueError (requiredXorMsg ["x"] ["y", "z"])) ∧
    (required_xor (V := Nat) (.list ["x"]) (.list ["y", "z"])).validate none
        [("y", some 2), ("z", some 3)] = .ok none := by
  refine ⟨?_, ?_, rfl, rfl, rfl, rfl, rfl⟩
  · intro V A B value values
    by_cases hc : B.all (fun name => (svFind name values).isSome) = value.isSome
    · simp [required_xor_validate_fn, hc]
    · simp [required_xor_validate_fn, hc]
  · intro V A B value values
    by_cases hc : B.all (fun name => (svFind name values).isSome) = value.isSome
    · simp [required_xor_validate_fn, hc]
    · simp [required_xor_validate_fn, hc]

/-- C10: the validator of `maybe_relative_path` always returns a `Path`
instance, never a string: a string input is wrapped in `Path` before the
absoluteness check, so an absolute string comes back as the equivalent
`Path` value. -/
theorem maybe_relative_path_returns_path
    (root : PPath) (pa : PathOrStr) (s : String)
    (habs : (PPath.ofString s).isAbsolute = true) :
    isPathVal (maybe_relative_path_validate_fn root pa) = true ∧
    maybe_relative_path_validate_fn root (.str s) = .path (PPath.ofString s) := by
  constructor
  · rw [maybe_relative_path_validate_fn]
    split <;> rfl
  · simp [maybe_relative_path_validate_fn, toPPath, habs]

theorem maybe_relative_path_returns_path_witness :
    (PPath.ofString "/abs/file").isAbsolute = true ∧
    (isPathVal (maybe_relative_path_validate_fn (PPath.ofString "/root")
        (.str "rel/file")) = true ∧
      maybe_relative_path_validate_fn (PPath.ofString "/root") (.str "/abs/file") =
        .path (PPath.ofString "/abs/file")) :=
  ⟨by decide,
    maybe_relative_path_returns_path (PPath.ofString "/root") (.str "rel/file")
      "/abs/file" (by decide)⟩

/-- A successful association-list lookup locates a stored pair. -/
theorem assocFind_mem {α : Type} (k : Nat) (v : α) :
    ∀ (l : List (Nat × α)), assocFind k l = some v → (k, v) ∈ l := by
  intro l
  induction l with
  | nil => intro h; cases h
  | cons hd tl ih =>
    intro h
    obtain ⟨k2, v2⟩ := hd
    rw [assocFind] at h
    by_cases he : k2 = k
    · rw [if_pos he] at h
      injection h with h2
      subst he h2
      exact List.mem_cons_self _ _
    · rw [if_neg he] at h
      exact List.mem_cons_of_mem _ (ih h)

/-- A class with a nested model is present in the world. -/
theorem nestedModels_world_mem (world : ModelWorld) (cid c : Nat)
    (h : c ∈ nestedModels world cid) :
    ∃ m, assocFind cid world = some m := by
  rw [nestedModels] at h
  split at h
  · cases h
  · exact ⟨_, by assumption⟩

/-- A successful run from one class emits its own resolution event last. -/
theorem update_forward_refs_run_ends_with_self (world : ModelWorld) :
    ∀ (fuel cid : Nat) (tr : List Nat),
      update_forward_refs_recursive world fuel cid = some tr →
      ∃ p, tr = p ++ [cid] := by
  intro fuel
  cases fuel with
  | zero => intro cid tr h; cases h
  | succ f =>
    intro cid tr h
    rw [update_forward_refs_recursive] at h
    split at h
    · cases h
    · rename_i tr2 heq
      injection h with h2
      exact ⟨tr2, h2.symm⟩

/-- Every child handed to the recursion loop appears in the loop's trace. -/
theorem ufrChildren_mem (world : ModelWorld) (fuel : Nat) :
    ∀ (l : List Nat) (tr : List Nat),
      ufrChildren (update_forward_refs_recursive world fuel) l = some tr →
      ∀ c ∈ l, c ∈ tr := by
  intro l
  induction l with
  | nil => intro tr _ c hc; cases hc
  | cons c0 cs ih =>
    intro tr h c hc
    rw [ufrChildren] at h
    split at h
    · cases h
    · rename_i tr1 h1
      split at h
      · cases h
      · rename_i tr2 h2
        injection h with h3
        subst h3
        rcases List.mem_cons.mp hc with hc0 | hcs
        · subst hc0
          obtain ⟨p, hp⟩ := update_forward_refs_run_ends_with_self world fuel c tr1 h1
          subst hp
          exact List.mem_append.mpr (Or.inl (List.mem_append.mpr (Or.inr (List.mem_singleton.mpr rfl))))
        · exact List.mem_append.mpr (Or.inr (ih tr2 h2 c hcs))

/-- C8: `update_forward_refs_recursive` resolves children before the
parent: in the trace of any run that completes from a class, the class's
own `update_forward_refs` call is the final event, and the resolution
event of every directly-declared nested model class occurs strictly
earlier. -/
theorem update_forward_refs_children_before_parent
    (world : ModelWorld) (fuel cid : Nat) (tr : List Nat) (c : Nat)
    (h : update_forward_refs_recursive world fuel cid = some tr)
    (hc : c ∈ nestedModels world cid) :
    tr.getLast? = some cid ∧ c ∈ tr.dropLast := by
  cases fuel with
  | zero => cases h
  | succ f =>
    rw [update_forward_refs_recursive] at h
    split at h
    · cases h
    · rename_i tr2 heq
      injection h with h2
      subst h2
      refine ⟨List.getLast?_concat _, ?_⟩
      rw [List.dropLast_concat]
      exact ufrChildren_mem world f _ tr2 heq c hc

theorem update_forward_refs_children_before_parent_witness :
    update_forward_refs_recursive chainW 4 0 = some [2, 1, 0] ∧
    1 ∈ nestedModels chainW 0 ∧
    ([2, 1, 0].getLast? = some 0 ∧ 1 ∈ [2, 1, 0].dropLast) :=
  ⟨rfl, by decide,
    update_forward_refs_children_before_parent chainW 4 0 [2, 1, 0] 1 rfl (by decide)⟩

/-- The recursion loop completes whenever every child's run completes. -/
theorem ufrChildren_isSome (rec2 : Nat → Option (List Nat)) :
    ∀ (l : List Nat), (∀ c ∈ l, (rec2 c).isSome = true) →
      (ufrChildren rec2 l).isSome = true := by
  intro l
  induction l with
  | nil => intro _; rfl
  | cons c0 cs ih =>
    intro h
    obtain ⟨t1, ht1⟩ := Option.isSome_iff_exists.mp (h c0 (List.mem_cons_self _ _))
    obtain ⟨t2, ht2⟩ :=
      Option.isSome_iff_exists.mp (ih (fun c2 hc2 => h c2 (List.mem_cons_of_mem _ hc2)))
    rw [ufrChildren, ht1, ht2]
    rfl

/-- C9: the resolver terminates on every acyclic nesting graph — whenever
the directly-declared-nesting relation admits a decreasing rank, a run
from any class completes once the depth budget exceeds the class's rank —
and it performs no cycle detection: from the self-referential world and
from the mutually-referential world, the run completes under no budget at
all, i.e. the recursion never terminates. -/
theorem update_forward_refs_terminates_iff_acyclic :
    (∀ (world : ModelWorld) (rank : Nat → Nat),
      (∀ e ∈ world, ∀ c ∈ nestedModels world e.1, rank c < rank e.1) →
      ∀ (fuel cid : Nat), rank cid < fuel →
      (update_forward_refs_recursive world fuel cid).isSome = true) ∧
    (∀ fuel : Nat, update_forward_refs_recursive selfLoopW fuel 0 = none) ∧
    (∀ fuel : Nat, update_forward_refs_recursive mutualLoopW fuel 0 = none ∧
      update_forward_refs_recursive mutualLoopW fuel 1 = none) := by
  refine ⟨?_, ?_, ?_⟩
  · intro world rank hrank fuel
    induction fuel with
    | zero => intro cid h; omega
    | succ f ih =>
      intro cid hlt
      have hks : (ufrChildren (update_forward_refs_recursive world f)
          (nestedModels world cid)).isSome = true := by
        apply ufrChildren_isSome
        intro c hc
        obtain ⟨m, hm⟩ := nestedModels_world_mem world cid c hc
        have hdec : rank c < rank cid := hrank (cid, m) (assocFind_mem cid m world hm) c hc
        exact ih c (by omega)
      obtain ⟨tr, htr⟩ := Option.isSome_iff_exists.mp hks
      rw [update_forward_refs_recursive, htr]
      rfl
  · intro fuel
    induction fuel with
    | zero => rfl
    | succ f ih =>
      have hch : nestedModels selfLoopW 0 = [0] := rfl
      rw [update_forward_refs_recursive, hch, ufrChildren, ih]
  · intro fuel
    induction fuel with
    | zero => exact ⟨rfl, rfl⟩
    | succ f ih =>
      obtain ⟨ih0, ih1⟩ := ih
      have hch0 : nestedModels mutualLoopW 0 = [1] := rfl
      have hch1 : nestedModels mutualLoopW 1 = [0] := rfl
      constructor
      · rw [update_forward_refs_recursive, hch0, ufrChildren, ih1]
      · rw [update_forward_refs_recursive, hch1, ufrChildren, ih0]

theorem update_forward_refs_terminates_iff_acyclic_witness :
    (update_forward_refs_recursive chainW 4 0).isSome = true :=
  update_forward_refs_terminates_iff_acyclic.1 chainW (fun k => 3 - k)
    (by decide) 4 0 (by decide)

end Floodgate
